import Mathlib

/-!
Shallow embedding of the Viterbi decoders of Davigor/Sequence_Analysis_HMM.

Two C variants are modelled:

* `C_implementation/viterbi.c` and `C_implementation/poisson_sampling/viterbi.c`
  have the identical algorithmic core (suffix `P` below): all working tables are
  allocated with calloc, so never-written cells read as zero; the emission term
  of recursion step `i` reads `seq[i - 1]`; the `argmax` helper ends in
  `return row1;`, so an exact tie returns the tied double truncated to int.

* `C_implementation/durbin_example/viterbi_durbin.c` (suffix `D` below): the
  working tables are allocated with malloc, so never-written cells hold
  indeterminate values, modelled as explicit junk parameters; the emission term
  of recursion step `i` reads `e[seq[i]][j]`; its `argmax` returns 1 on ties.

C doubles are modelled as exact rationals.  The transcendental constants of the
programs (the log transition entries and the log emission values) are abstract
parameters of the decode, which is faithful because the recursion only adds and
compares them.
-/

/-- The helper `max` of viterbi.c lines 152-164 (same text in
poisson_sampling/viterbi.c lines 172-184): three branches, returning the second
argument both when `a < b` holds and on exact equality. -/
def maxP (a b : ℚ) : ℚ := if a > b then a else if a < b then b else b

/-- The helper `max` of viterbi_durbin.c lines 28-39: two branches, returning
the second argument whenever `a > b` fails. -/
def maxD (a b : ℚ) : ℚ := if a > b then a else b

/-- C conversion of a `double` value to `int`: truncation toward zero.  Used to
model the statement `return row1;` in the `argmax` of the Poisson variants,
whose declared return type is `int`. -/
def doubleToInt (q : ℚ) : ℤ := if 0 ≤ q then ⌊q⌋ else -⌊-q⌋

/-- The helper `argmax` of viterbi.c lines 166-177 (same text in
poisson_sampling/viterbi.c lines 186-197).  On an exact tie the C code executes
`return row1;`, converting the tied double score itself to an int, instead of
returning the index 1. -/
def argmaxP (row0 row1 : ℚ) : ℤ :=
  if row0 > row1 then 0 else if row0 < row1 then 1 else doubleToInt row1

/-- The helper `argmax` of viterbi_durbin.c lines 41-51: index 0 when
`row0 > row1`, index 1 otherwise (so exact ties give 1). -/
def argmaxD (row0 row1 : ℚ) : ℤ := if row0 > row1 then 0 else 1

/-- Score table `vprob[j][i]` of viterbi.c (main, lines 102-120).  Column 0 is
written by `vprob[0][0] = 1; vprob[1][0] = 0;` and column `i`, `i ≥ 1`, by the
recursion, whose emission term reads `seq[i - 1]`.  The log emission value
`log(poisson(seq[i-1], e[j]))` is the abstract parameter `elog`. -/
def vprobP (a : Fin 2 → Fin 2 → ℚ) (elog : ℤ → Fin 2 → ℚ) (seq : ℕ → ℤ) :
    ℕ → Fin 2 → ℚ
  | 0, j => if j = 0 then 1 else 0
  | i + 1, j =>
      elog (seq i) j +
        maxP (vprobP a elog seq i 0 + a 0 j) (vprobP a elog seq i 1 + a 1 j)

/-- Backpointer table `ptr[j][i]` of viterbi.c line 117.  Column 0 is never
written and reads as the calloc value 0. -/
def ptrP (a : Fin 2 → Fin 2 → ℚ) (elog : ℤ → Fin 2 → ℚ) (seq : ℕ → ℤ) :
    ℕ → Fin 2 → ℤ
  | 0, _ => 0
  | i + 1, j =>
      argmaxP (vprobP a elog seq i 0 + a 0 j) (vprobP a elog seq i 1 + a 1 j)

/-- Row-max table `pi[j][i]` of viterbi.c line 118.  Column 0 is never written
and reads as the calloc value 0. -/
def piP (a : Fin 2 → Fin 2 → ℚ) (elog : ℤ → Fin 2 → ℚ) (seq : ℕ → ℤ) :
    ℕ → Fin 2 → ℚ
  | 0, _ => 0
  | i + 1, j =>
      maxP (vprobP a elog seq i 0 + a 0 j) (vprobP a elog seq i 1 + a 1 j)

/-- Interpretation of a stored backpointer value as a row index, for the
traceback read `ptr[path[i + 1]][i + 1]`.  The C tables have exactly the rows
0 and 1; in every execution the theorems below depend on, the stored value is
0 or 1 and this function is the identity on it. -/
def stateIdx (s : ℤ) : Fin 2 := if s = 1 then 1 else 0

/-- Traceback of viterbi.c lines 123-128, indexed from the end of the path
array: `pathCellP a elog seq n d` is `path[n - 1 - d]`.  Step `d = 0` is
`path[n-1] = argmax(pi[0][n-1], pi[1][n-1])` (line 124); the loop body
`path[i] = ptr[path[i+1]][i+1]` runs for `i = n-2` down to `1`; `path[0]` is
never assigned and keeps its calloc value 0. -/
def pathCellP (a : Fin 2 → Fin 2 → ℚ) (elog : ℤ → Fin 2 → ℚ) (seq : ℕ → ℤ)
    (n : ℕ) : ℕ → ℤ
  | 0 => argmaxP (piP a elog seq (n - 1) 0) (piP a elog seq (n - 1) 1)
  | d + 1 =>
      if d + 1 ≤ n - 2 then
        ptrP a elog seq (n - 1 - d) (stateIdx (pathCellP a elog seq n d))
      else 0

/-- `path[i]` of viterbi.c after the traceback, for a sequence of length `n`. -/
def pathP (a : Fin 2 → Fin 2 → ℚ) (elog : ℤ → Fin 2 → ℚ) (seq : ℕ → ℤ)
    (n i : ℕ) : ℤ :=
  pathCellP a elog seq n (n - 1 - i)

/-- The whole decoded path of viterbi.c, as the list `path[0], …, path[n-1]`
(before the final `path[i]++` display shift, so states are 0 and 1). -/
def decodeP (a : Fin 2 → Fin 2 → ℚ) (elog : ℤ → Fin 2 → ℚ) (seq : ℕ → ℤ)
    (n : ℕ) : List ℤ :=
  (List.range n).map (pathP a elog seq n)

/-- Score table `vprob[j][i]` of viterbi_durbin.c (run_viterbi, lines 165-183).
Column 0 is written by `vprob[0][0] = 1; vprob[1][0] = 0;` and column `i`,
`i ≥ 1`, by the recursion, whose emission term reads `e[seq[i]][j]`.  The log
emission table read is the abstract parameter `e`. -/
def vprobD (a : Fin 2 → Fin 2 → ℚ) (e : ℤ → Fin 2 → ℚ) (seq : ℕ → ℤ) :
    ℕ → Fin 2 → ℚ
  | 0, j => if j = 0 then 1 else 0
  | i + 1, j =>
      e (seq (i + 1)) j +
        maxD (vprobD a e seq i 0 + a 0 j) (vprobD a e seq i 1 + a 1 j)

/-- Backpointer table `ptr[j][i]` of viterbi_durbin.c line 180.  Column 0 is
never written; the program also never reads it (the traceback reads columns
`≥ 2` only), so the malloc junk it holds is irrelevant and it is modelled
as 0. -/
def ptrD (a : Fin 2 → Fin 2 → ℚ) (e : ℤ → Fin 2 → ℚ) (seq : ℕ → ℤ) :
    ℕ → Fin 2 → ℤ
  | 0, _ => 0
  | i + 1, j =>
      argmaxD (vprobD a e seq i 0 + a 0 j) (vprobD a e seq i 1 + a 1 j)

/-- Row-max table `pi[j][i]` of viterbi_durbin.c line 181.  The table is
allocated with malloc and column 0 is never written, but the traceback reads
it when the sequence length is 1, so the indeterminate contents of column 0
are the explicit parameter `pj`. -/
def piD (a : Fin 2 → Fin 2 → ℚ) (e : ℤ → Fin 2 → ℚ) (seq : ℕ → ℤ)
    (pj : Fin 2 → ℚ) : ℕ → Fin 2 → ℚ
  | 0, j => pj j
  | i + 1, j =>
      maxD (vprobD a e seq i 0 + a 0 j) (vprobD a e seq i 1 + a 1 j)

/-- Traceback of viterbi_durbin.c lines 186-191, indexed from the end as in
`pathCellP`.  The path array is allocated with malloc and `path[0]` is never
assigned when `n ≥ 2`, so an unwritten cell holds the indeterminate value
`junk`. -/
def pathCellD (a : Fin 2 → Fin 2 → ℚ) (e : ℤ → Fin 2 → ℚ) (seq : ℕ → ℤ)
    (pj : Fin 2 → ℚ) (junk : ℤ) (n : ℕ) : ℕ → ℤ
  | 0 => argmaxD (piD a e seq pj (n - 1) 0) (piD a e seq pj (n - 1) 1)
  | d + 1 =>
      if d + 1 ≤ n - 2 then
        ptrD a e seq (n - 1 - d) (stateIdx (pathCellD a e seq pj junk n d))
      else junk

/-- `path[i]` of viterbi_durbin.c after the traceback. -/
def pathD (a : Fin 2 → Fin 2 → ℚ) (e : ℤ → Fin 2 → ℚ) (seq : ℕ → ℤ)
    (pj : Fin 2 → ℚ) (junk : ℤ) (n i : ℕ) : ℤ :=
  pathCellD a e seq pj junk n (n - 1 - i)

/-- The whole decoded path of viterbi_durbin.c, states 0 (printed F) and
1 (printed L). -/
def decodeD (a : Fin 2 → Fin 2 → ℚ) (e : ℤ → Fin 2 → ℚ) (seq : ℕ → ℤ)
    (pj : Fin 2 → ℚ) (junk : ℤ) (n : ℕ) : List ℤ :=
  (List.range n).map (pathD a e seq pj junk n)

/-- The storing step of read_sequencefile (viterbi_durbin.c line 68): every
value `num` parsed from the sequence file is stored as `num - 1`. -/
def readSequence (raw : List ℤ) : List ℤ := raw.map (fun v => v - 1)

/-- The emission table reads of run_viterbi are `e[seq[i]][j]` for
`i = 1 … n-1` (viterbi_durbin.c line 179), and the table `e` has 6 rows
(lines 131-138).  This predicate states that every one of those reads falls
within rows 0..5; position 0 of the stored sequence is never used as an
emission index because the recursion starts at `i = 1`. -/
def lookupIndicesInRange (s : List ℤ) : Prop :=
  ∀ i, i < s.length → 1 ≤ i → 0 ≤ s.getD i 0 ∧ s.getD i 0 < 6

/-- Two's-complement wraparound of a 32-bit signed int, used to model the
`int` arithmetic of the factorial loop in `poisson`. -/
def wrap32 (x : ℤ) : ℤ := (x + 2 ^ 31) % 2 ^ 32 - 2 ^ 31

/-- The factorial loop of `poisson` (viterbi.c lines 186-193): the `int`
variable `factk` starts at `k` and is multiplied by `i = k-1, …, 1`, every
product wrapping at 32 bits. -/
def factLoop : ℤ → ℕ → ℤ
  | acc, 0 => acc
  | acc, i + 1 => factLoop (wrap32 (acc * (i + 1))) i

/-- The value of `factk` computed by `poisson` (viterbi.c lines 181-193):
1 when `k = 0`, the wrapping factorial loop otherwise. -/
def factk (k : ℕ) : ℤ := if k = 0 then 1 else factLoop k (k - 1)

/-- `poisson` of viterbi.c lines 179-195 (same text in
poisson_sampling/viterbi.c lines 199-215): `pow(lambda, k) * exp(-lambda) /
factk`.  The transcendental factor `exp(-lambda)` is the abstract parameter
`expNegLam`. -/
def poisson (k : ℕ) (lam expNegLam : ℚ) : ℚ :=
  lam ^ k * expNegLam / (factk k : ℚ)

/-- All-zero transition matrix, used as a concrete test model. -/
def zA : Fin 2 → Fin 2 → ℚ := fun _ _ => 0

/-- All-zero emission function, used as a concrete test model. -/
def zE : ℤ → Fin 2 → ℚ := fun _ _ => 0

/-- All-zero observation sequence, used as a concrete test model. -/
def zS : ℕ → ℤ := fun _ => 0

/-- All-zero junk contents for the unwritten `pi` column of the Durbin
variant: the most favorable possible memory contents. -/
def zPJ : Fin 2 → ℚ := fun _ => 0

/-- Concrete transition matrix separating the argmax over the `pi` table from
the argmax over the final `vprob` column. -/
def exA : Fin 2 → Fin 2 → ℚ :=
  fun k j => if k = 0 then (if j = 0 then 0 else -1) else -10

/-- Concrete emission model strongly favoring state 1. -/
def exE : ℤ → Fin 2 → ℚ := fun _ j => if j = 0 then 0 else 10

/-- Concrete transition matrix producing an exact tie of the two predecessor
scores, with common value -2, at recursion step 1. -/
def tieA : Fin 2 → Fin 2 → ℚ := fun k _ => if k = 0 then -3 else -2

theorem maxP_eq_max (x y : ℚ) : maxP x y = max x y := by
  unfold maxP
  split_ifs with h1 h2
  · exact (max_eq_left h1.le).symm
  · exact (max_eq_right h2.le).symm
  · exact (max_eq_right (not_lt.mp h1)).symm

theorem maxD_eq_max (x y : ℚ) : maxD x y = max x y := by
  unfold maxD
  split_ifs with h1
  · exact (max_eq_left h1.le).symm
  · exact (max_eq_right (not_lt.mp h1)).symm

theorem getLast?_range_map (f : ℕ → ℤ) (m : ℕ) :
    ((List.range (m + 1)).map f).getLast? = some (f m) := by
  rw [List.range_succ, List.map_append, List.map_singleton,
    List.getLast?_concat]

/-- Claim C1: at every recursion step `i + 1` and next state `j`, the score
table of both variants satisfies
`V[j][i] = emission + max(V[0][i-1] + a[0][j], V[1][i-1] + a[1][j])`,
where the Poisson variant's emission term reads observation `i - 1` (here
`seq i` at step `i + 1`) and the discrete Durbin variant's reads observation
`i` (here `seq (i + 1)`). -/
theorem recursion_recomputation (a : Fin 2 → Fin 2 → ℚ) (eP eD : ℤ → Fin 2 → ℚ)
    (s : ℕ → ℤ) (i : ℕ) (j : Fin 2) :
    vprobP a eP s (i + 1) j
        = eP (s i) j + max (vprobP a eP s i 0 + a 0 j) (vprobP a eP s i 1 + a 1 j)
      ∧ vprobD a eD s (i + 1) j
        = eD (s (i + 1)) j
            + max (vprobD a eD s i 0 + a 0 j) (vprobD a eD s i 1 + a 1 j) := by
  constructor
  · rw [vprobP, maxP_eq_max]
  · rw [vprobD, maxD_eq_max]

/-- Claim C2, counterexample: a concrete model (transition matrix `exA`,
emission `exE` strongly favoring state 1) on a length-2 sequence where the
decoded path ends in state 0 although state 1 strictly maximizes the final
column of the score table `vprob`, because the code takes the final argmax
over the row-max table `pi`, which omits the emission terms. -/
theorem traceback_last_ne_vprob_argmax :
    (decodeP exA exE zS 2).getLast? = some 0
      ∧ vprobP exA exE zS 1 0 < vprobP exA exE zS 1 1 := by
  constructor
  · norm_num [decodeP, pathP, pathCellP, piP, ptrP, vprobP, argmaxP, maxP,
      doubleToInt, exA, exE, zS, List.range_succ]
  · norm_num [vprobP, maxP, exA, exE, zS]

/-- Claim C2, amended: for every observation sequence of length `n ≥ 1`, the
last element of the traceback path equals the argmax of the final column of
the materialized row-max table `pi`, in both variants. -/
theorem traceback_last_eq_pi_argmax (a : Fin 2 → Fin 2 → ℚ)
    (eP eD : ℤ → Fin 2 → ℚ) (s : ℕ → ℤ) (pj : Fin 2 → ℚ) (junk : ℤ)
    (n : ℕ) (h : 1 ≤ n) :
    (decodeP a eP s n).getLast?
        = some (argmaxP (piP a eP s (n - 1) 0) (piP a eP s (n - 1) 1))
      ∧ (decodeD a eD s pj junk n).getLast?
        = some (argmaxD (piD a eD s pj (n - 1) 0) (piD a eD s pj (n - 1) 1)) := by
  obtain ⟨m, rfl⟩ : ∃ m, n = m + 1 := ⟨n - 1, (Nat.succ_pred_eq_of_pos h).symm⟩
  constructor
  · rw [decodeP, getLast?_range_map]
    simp [pathP, pathCellP, Nat.add_sub_cancel, Nat.sub_self]
  · rw [decodeD, getLast?_range_map]
    simp [pathD, pathCellD, Nat.add_sub_cancel, Nat.sub_self]

/-- Claim C2, witness: the amended theorem applied to the all-zero model at
`n = 2`. -/
theorem traceback_last_eq_pi_argmax_witness :
    1 ≤ 2
      ∧ ((decodeP zA zE zS 2).getLast?
            = some (argmaxP (piP zA zE zS 1 0) (piP zA zE zS 1 1))
          ∧ (decodeD zA zE zS zPJ 0 2).getLast?
            = some (argmaxD (piD zA zE zS zPJ 1 0) (piD zA zE zS zPJ 1 1))) :=
  ⟨by norm_num, traceback_last_eq_pi_argmax zA zE zE zS zPJ 0 2 (by norm_num)⟩

/-- Claim C3: on a length-1 sequence the Durbin variant does not output the
fixed start state.  Its traceback reads the never-written (malloc) cells
`pi[0][0]` and `pi[1][0]`; even under the most favorable memory contents
(both zero, the junk model `zPJ`), its tie-breaking argmax yields state 1,
the opposite of the start state 0.  The calloc-based viterbi.c variant, whose
`pi` column 0 reads as genuine zeros and whose argmax truncates the tied 0.0
to 0, does return the start state. -/
theorem durbin_length_one_not_start_state :
    decodeD zA zE zS zPJ 0 1 = [1] ∧ decodeP zA zE zS 1 = [0] := by
  constructor
  · norm_num [decodeD, pathD, pathCellD, piD, ptrD, vprobD, argmaxD, maxD,
      zA, zE, zS, zPJ, List.range_succ]
  · norm_num [decodeP, pathP, pathCellP, piP, ptrP, vprobP, argmaxP, maxP,
      doubleToInt, zA, zE, zS, List.range_succ]

/-- Claim C4: on exact ties the `argmax` of the Poisson variants executes
`return row1;`, truncating the tied double score to an int, so it returns 0
for tied scores of 0.0 and -3 for tied scores of -7/2 — it returns 1 only
when the tied score happens to lie in [1, 2).  The Durbin variant's `argmax`
does return 1 on every tie. -/
theorem argmax_tie_truncates :
    argmaxP 0 0 = 0 ∧ argmaxP (-7 / 2) (-7 / 2) = -3 ∧ argmaxP 1 1 = 1
      ∧ argmaxD 0 0 = 1 := by
  refine ⟨?_, ?_, ?_, ?_⟩ <;> norm_num [argmaxP, argmaxD, doubleToInt]

/-- Claim C5: in every variant and for every model, the score table is
initialized with `vprob[0][0] = 1` — the linear-space probability of
certainty, although the table is a log-space table where certainty is 0 —
and `vprob[1][0] = 0`. -/
theorem vprob_init_values (a : Fin 2 → Fin 2 → ℚ) (eP eD : ℤ → Fin 2 → ℚ)
    (s : ℕ → ℤ) :
    vprobP a eP s 0 0 = 1 ∧ vprobP a eP s 0 1 = 0
      ∧ vprobD a eD s 0 0 = 1 ∧ vprobD a eD s 0 1 = 0 :=
  ⟨rfl, rfl, rfl, rfl⟩

/-- Claim C6: under the transition matrix `tieA` the two predecessor scores at
recursion step 1 tie at the common value -2, and the Poisson variants store
the backpointer `ptr[0][1] = -2`, which is not a valid state index. -/
theorem backpointer_invalid_on_tie :
    ptrP tieA zE zS 1 0 = -2 ∧ ¬((-2 : ℤ) = 0 ∨ (-2 : ℤ) = 1) := by
  constructor
  · norm_num [ptrP, vprobP, argmaxP, maxP, doubleToInt, tieA, zE, zS]
  · decide

/-- Claim C7: the Durbin variant's output depends on the indeterminate
contents of the never-assigned cell `path[0]` (the traceback loop stops at
index 1 and the array is allocated with malloc): two decodes of the same
length-2 input that differ only in that residual memory value produce
different output paths. -/
theorem durbin_uninit_path_head :
    decodeD zA zE zS zPJ 0 2 ≠ decodeD zA zE zS zPJ 1 2 := by
  have h0 : decodeD zA zE zS zPJ 0 2 = [0, 1] := by
    norm_num [decodeD, pathD, pathCellD, piD, ptrD, vprobD, argmaxD, maxD,
      zA, zE, zS, zPJ, List.range_succ]
  have h1 : decodeD zA zE zS zPJ 1 2 = [1, 1] := by
    norm_num [decodeD, pathD, pathCellD, piD, ptrD, vprobD, argmaxD, maxD,
      zA, zE, zS, zPJ, List.range_succ]
  rw [h0, h1]
  decide

set_option maxRecDepth 8000 in
/-- Claim C8, counterexample: the factorial inside `poisson` is accumulated in
a 32-bit `int` and overflows at `k = 13`, where the loop yields 1932053504
instead of 13! = 6227020800, so `poisson(13, lambda)` is not
`lambda^13 * exp(-lambda) / 13!` (shown here at `lambda = 1` with the
abstract `exp(-lambda)` factor instantiated to 1). -/
theorem poisson_overflow_at_13 :
    factk 13 = 1932053504
      ∧ poisson 13 1 1 ≠ 1 ^ 13 * 1 / (Nat.factorial 13 : ℚ) := by
  have hf : factk 13 = 1932053504 := by decide
  have hfact : Nat.factorial 13 = 6227020800 := by decide
  refine ⟨hf, ?_⟩
  rw [poisson, hf, hfact]
  norm_num

set_option maxRecDepth 8000 in
/-- Claim C8, amended: for every count `k ≤ 12` (the range in which the
32-bit factorial does not overflow) and every rate, `poisson` returns
`lambda^k * exp(-lambda) / k!`, treating `0!` as 1, so that
`poisson(0, lambda) = exp(-lambda)`. -/
theorem poisson_formula (k : ℕ) (hk : k ≤ 12) (lam expNegLam : ℚ) :
    poisson k lam expNegLam = lam ^ k * expNegLam / (Nat.factorial k : ℚ)
      ∧ poisson 0 lam expNegLam = expNegLam := by
  have hfk : ∀ m : ℕ, m ≤ 12 → factk m = (Nat.factorial m : ℤ) := by decide
  constructor
  · rw [poisson, hfk k hk]
    norm_num
  · rw [poisson]
    norm_num [factk]

/-- Claim C8, witness: the amended theorem applied at `k = 3`, `lambda = 2`,
with the abstract `exp(-lambda)` factor instantiated to 5. -/
theorem poisson_formula_witness :
    3 ≤ 12 ∧ (poisson 3 2 5 = 2 ^ 3 * 5 / (Nat.factorial 3 : ℚ)
      ∧ poisson 0 2 5 = 5) :=
  ⟨by norm_num, poisson_formula 3 (by norm_num) 2 5⟩

/-- Claim C9: in the Durbin variant, at every recursion step `i + 1` and next
state `j`, the stored row maximum is attained through the stored backpointer:
`pi[j][i] = vprob[ptr[j][i]][i-1] + a[ptr[j][i]][j]`. -/
theorem pi_ptr_consistent (a : Fin 2 → Fin 2 → ℚ) (e : ℤ → Fin 2 → ℚ)
    (s : ℕ → ℤ) (pj : Fin 2 → ℚ) (i : ℕ) (j : Fin 2) :
    piD a e s pj (i + 1) j
      = vprobD a e s i (stateIdx (ptrD a e s (i + 1) j))
        + a (stateIdx (ptrD a e s (i + 1) j)) j := by
  by_cases h : vprobD a e s i 1 + a 1 j < vprobD a e s i 0 + a 0 j
  · simp [piD, ptrD, argmaxD, maxD, stateIdx, h]
  · simp [piD, ptrD, argmaxD, maxD, stateIdx, h]

/-- Claim C10, counterexample: the input file `[7, 3]` has a first value
outside 1..6, yet every emission-table lookup of the recursion (which starts
at position 1 and never uses position 0 as an emission index) stays within
the 6-row table, so in-bounds lookups do not imply that every value of the
file lies in 1..6. -/
theorem lookup_bounds_iff_fails_at_head :
    lookupIndicesInRange (readSequence [7, 3])
      ∧ ¬(∀ v ∈ ([7, 3] : List ℤ), 1 ≤ v ∧ v ≤ 6) := by
  constructor
  · intro i hlen h1
    have h2 : i < 2 := by simpa [readSequence] using hlen
    have h3 : i = 1 := by omega
    subst h3
    norm_num [readSequence]
  · intro h
    have h7 := h 7 (by norm_num)
    omega

/-- Claim C10, amended: every value `v` parsed from the sequence file is
stored as `v - 1`, and the emission-table lookups of the recursion stay
within the 6-row table if and only if every value of the input file at the
positions `1 … n-1` actually used by the recursion lies in 1..6 (the first
value is never used as an emission index). -/
theorem readSequence_lookup_bounds (raw : List ℤ) :
    (∀ i, i < raw.length → (readSequence raw).getD i 0 = raw.getD i 0 - 1)
      ∧ (lookupIndicesInRange (readSequence raw) ↔
          ∀ i, i < raw.length → 1 ≤ i → 1 ≤ raw.getD i 0 ∧ raw.getD i 0 ≤ 6) := by
  have hlen : (readSequence raw).length = raw.length := by
    simp [readSequence]
  have hget : ∀ i, i < raw.length →
      (readSequence raw).getD i 0 = raw.getD i 0 - 1 := by
    intro i h
    rw [readSequence, List.getD_eq_getElem?_getD, List.getElem?_map,
      List.getD_eq_getElem?_getD, List.getElem?_eq_getElem h]
    simp
  refine ⟨hget, ?_⟩
  unfold lookupIndicesInRange
  constructor
  · intro h i hi h1
    have h2 := h i (by rw [hlen] ; exact hi) h1
    rw [hget i hi] at h2
    omega
  · intro h i hi h1
    have hi' : i < raw.length := by rw [hlen] at hi ; exact hi
    have h2 := h i hi' h1
    rw [hget i hi']
    omega


/-- Claim C10, witness: the amended theorem applied to the concrete input
file `[4, 5]`, whose position-1 value lies in 1..6. -/
theorem readSequence_lookup_bounds_witness :
    (readSequence [4, 5]).getD 1 0 = 4
      ∧ lookupIndicesInRange (readSequence [4, 5]) := by
  constructor
  · have h := (readSequence_lookup_bounds [4, 5]).1 1 (by norm_num)
    simpa using h
  · refine (readSequence_lookup_bounds [4, 5]).2.mpr ?_
    intro i hi h1
    have h2 : i < 2 := by simpa using hi
    have h3 : i = 1 := by omega
    subst h3
    norm_num
